import Mathlib

/-!
Shallow embedding of the `rs-bio` buffered-transfer engine.

The embedding follows `crate/bio/src/buffer3.rs`, `crate/bio/src/buffer3/buffer.rs`,
`src/buffer3/compact_strategy.rs`, `src/buffer3/copy_strategy.rs`, and the
windowing combinators `crate/bio/src/buffer3/flow/each_consecutive.rs` and
`src/stream/chunk.rs`.

A `Buffer` is a backing store (a `List`) plus a `span = (position, limit)` pair.
Producers (`Source::source`) and consumers (`Sink::sink`) are modelled as
explicit state-passing step functions: a producer step receives the current
contents of the destination slice and returns the produced count, the new
contents of that slice, and its next state; a consumer step receives the
offered slice and returns the consumed count and its next state.  `usize`
values are `Nat`; Rust's `Result` is `Except`; recursion that Rust runs
unboundedly is given explicit fuel, with `none` meaning "fuel exhausted".
-/

namespace Bio

/-- Error kinds we distinguish, mirroring the `std::io::ErrorKind` values the
code actually produces (`BrokenPipe` in `stream/chunk.rs`) plus a generic one. -/
inductive ErrKind where
  | brokenPipe
  | other
deriving DecidableEq, Repr

/-- `Buffer<D, T, C, P>` from `buffer3.rs`: backing `data` plus
`span : (usize, usize)`.  The strategy type parameters become explicit
function arguments where they matter (compaction). -/
structure Buffer (α : Type) where
  data : List α
  span : Nat × Nat
deriving DecidableEq, Repr

/-- A `Source<T>` (`fn source(&mut self, into: &mut [T]) -> IO`): given the
producer state and the current contents of the destination slice, return the
count, the new slice contents, and the next producer state. -/
def SrcStep (α ε σ : Type) : Type :=
  σ → List α → Except ε (Nat × List α × σ)

/-- A `Sink<T>` (`fn sink(&mut self, from: &[T]) -> IO`): given the consumer
state and the offered slice, return the count consumed and the next state. -/
def SnkStep (α ε σ : Type) : Type :=
  σ → List α → Except ε (Nat × σ)

namespace Buffer

/-- `Buffer::new(data)`: `span = (0, 0)` (also `from`, `from_clone`, `from_copy`). -/
def new (data : List α) : Buffer α :=
  ⟨data, (0, 0)⟩

/-- First span component (`span.0`, called `position` in the doc comments). -/
def position (b : Buffer α) : Nat := b.span.1

/-- Second span component (`span.1`, called `limit`). -/
def limit (b : Buffer α) : Nat := b.span.2

/-- `available() = end - start`. -/
def available (b : Buffer α) : Nat := b.limit - b.position

/-- `is_empty() = available() == 0`. -/
def isEmpty (b : Buffer α) : Bool := b.available == 0

/-- `clear()`: `span = (0, 0)`. -/
def clear (b : Buffer α) : Buffer α := { b with span := (0, 0) }

/-- `as_source()`: `span = (0, data.len())`. -/
def asSource (b : Buffer α) : Buffer α := { b with span := (0, b.data.length) }

/-- `as_read()`: the slice `data[start..end]`. -/
def asRead (b : Buffer α) : List α := (b.data.take b.limit).drop b.position

/-- `len() = data.len()`. -/
def len (b : Buffer α) : Nat := b.data.length

/-- `free() = len() - span.1`. -/
def free (b : Buffer α) : Nat := b.len - b.limit

/-- `is_full() = free() == 0`. -/
def isFull (b : Buffer α) : Bool := b.free == 0

/-- `as_write()`: the slice `data[end..]`. -/
def asWrite (b : Buffer α) : List α := b.data.drop b.limit

/-- `Buffer::write`: `into.sink(self.as_read()).tap_ok(|n| self.span.0 += n)`.
On `Ok(n)` the position advances by `n`; on an error the span is untouched
(`tap_ok` applies the offset change only to the `Ok` case). -/
def write (g : SnkStep α ε κ) (k : κ) (b : Buffer α) :
    Except ε Nat × Buffer α × κ :=
  match g k b.asRead with
  | .error e => (.error e, b, k)
  | .ok (n, k') => (.ok n, { b with span := (b.position + n, b.limit) }, k')

/-- `Buffer::read`: `from.source(self.as_write()).tap_ok(|n| self.span.1 += n)`.
The producer rewrites the free region (the slice `data[end..]`) and on `Ok(n)`
the limit advances by `n`; on an error the span is untouched. -/
def read (f : SrcStep α ε σ) (s : σ) (b : Buffer α) :
    Except ε Nat × Buffer α × σ :=
  match f s b.asWrite with
  | .error e => (.error e, b, s)
  | .ok (n, repl, s') =>
      (.ok n, { b with data := b.data.take b.limit ++ repl
                       span := (b.position, b.limit + n) }, s')

/-- `Buffer::copy_slice`: `n = min(dest.len(), src.len())`, then
`C::copy_slice(dest[..n], src[..n])` — the destination's first `n` slots
become `src[..n]`. -/
def copySlice (dest src : List α) : Nat × List α :=
  let n := min dest.length src.length
  (n, src.take n ++ dest.drop n)

/-- `Buffer::copy_into`: copy from `as_read()` into `into`, advance `span.0`. -/
def copyInto (b : Buffer α) (into : List α) : Nat × List α × Buffer α :=
  let r := copySlice into b.asRead
  (r.1, r.2, { b with span := (b.position + r.1, b.limit) })

/-- `Buffer::copy_from`: copy from `from` into `as_write()`, advance `span.1`. -/
def copyFrom (b : Buffer α) (src : List α) : Nat × Buffer α :=
  let r := copySlice b.asWrite src
  (r.1, { b with data := b.data.take b.limit ++ r.2
                 span := (b.position, b.limit + r.1) })

end Buffer

/-- `SCopy`'s `compact_within(slice, start..end)`:
`slice.copy_within(area, 0)` — the segment `slice[start..end]` is copied to
offset `0`, everything from index `end - start` on is unchanged. -/
def compactCopy (data : List α) (s e : Nat) : List α :=
  ((data.take e).drop s) ++ data.drop (e - s)

/-- One pairwise exchange `swap(slice[i], slice[j])`. -/
def listSwap (l : List α) (i j : Nat) : List α :=
  match l[i]?, l[j]? with
  | some a, some b => (l.set i b).set j a
  | _, _ => l

/-- `SNone`'s `compact_within(slice, start..end)`: early return when
`start == 0 || end == start`, otherwise the loop
`for i in 0..(end - start) { swap(slice[i], slice[start + i]) }`. -/
def compactSwap (data : List α) (s e : Nat) : List α :=
  if s = 0 ∨ e = s then data
  else (List.range (e - s)).foldl (fun d i => listSwap d i (s + i)) data

/-- `Buffer::compact`: run the configured compaction policy on
`data[start..end]`, then `*end -= *start; *start = 0`. -/
def Buffer.compactWith (cs : List α → Nat → Nat → List α) (b : Buffer α) :
    Buffer α :=
  ⟨cs b.data b.position b.limit, (0, b.limit - b.position)⟩

/-- The span invariant `0 ≤ position ≤ limit ≤ len` (the `0 ≤` part is
implicit in `Nat`). -/
def Inv (b : Buffer α) : Prop :=
  b.position ≤ b.limit ∧ b.limit ≤ b.data.length

instance (b : Buffer α) : Decidable (Inv b) := by
  unfold Inv; infer_instance

/-- `transfuse_rec` from `buffer3.rs`, with explicit fuel for the tail
recursion (`none` = fuel exhausted, which the Rust recursion never observes).
Each round: `buffer.compact()`; `read` unless `source_done` (then `0`);
`write`; stop with `Ok(total)` on a double zero; otherwise recurse with
`source_done := read == 0` and `total + write`. -/
def transfuseRec (cs : List α → Nat → Nat → List α)
    (f : SrcStep α ε σ) (g : SnkStep α ε κ) :
    Nat → Bool → Nat → Buffer α → σ → κ →
      Option (Except ε (Nat × Buffer α × σ × κ))
  | 0, _, _, _, _, _ => none
  | fuel + 1, sourceDone, total, b, s, k =>
    let b1 := b.compactWith cs
    match (cond sourceDone (.ok 0, b1, s) (b1.read f s)) with
    | (.error e, _, _) => some (.error e)
    | (.ok n, b2, s2) =>
      match b2.write g k with
      | (.error e, _, _) => some (.error e)
      | (.ok w, b3, k2) =>
        if n = 0 ∧ w = 0 then some (.ok (total, b3, s2, k2))
        else transfuseRec cs f g fuel (n == 0) (total + w) b3 s2 k2

deriving instance DecidableEq for Except

/-- A `Buffer` used as a `Source` (`impl Source for Buffer` delegates to
`copy_into`). -/
def bufSrc : SrcStep α ε (Buffer α) := fun s dest =>
  let r := s.copyInto dest
  .ok (r.1, r.2.1, r.2.2)

/-- A `Buffer` used as a `Sink` (`impl Sink for Buffer` delegates to
`copy_from`). -/
def bufSnk : SnkStep α ε (Buffer α) := fun k src =>
  let r := k.copyFrom src
  .ok (r.1, r.2)

/-- Instrumentation wrapper: behaves exactly like `f` but records, per
invocation, the offered destination length and the returned count. -/
def loggedSrc (f : SrcStep α ε σ) : SrcStep α ε (σ × List (Nat × Nat)) :=
  fun p dest =>
    match f p.1 dest with
    | .error e => .error e
    | .ok (n, repl, s') => .ok (n, repl, (s', p.2 ++ [(dest.length, n)]))

theorem Buffer.asWrite_length (b : Buffer α) :
    b.asWrite.length = b.data.length - b.limit := by
  simp [asWrite]

theorem Buffer.asRead_length (b : Buffer α) :
    b.asRead.length = min b.limit b.data.length - b.position := by
  simp [asRead]

theorem listSwap_length (l : List α) (i j : Nat) :
    (listSwap l i j).length = l.length := by
  unfold listSwap
  cases h1 : l[i]? <;> cases h2 : l[j]? <;> simp

theorem foldl_listSwap_length (ix : List Nat) (g : Nat → Nat) (d : List α) :
    (ix.foldl (fun d i => listSwap d i (g i)) d).length = d.length := by
  induction ix generalizing d with
  | nil => rfl
  | cons a t ih => simp only [List.foldl_cons, ih, listSwap_length]

theorem compactSwap_length (data : List α) (s e : Nat) :
    (compactSwap data s e).length = data.length := by
  unfold compactSwap
  split
  · rfl
  · exact foldl_listSwap_length (List.range (e - s)) (s + ·) data

theorem compactCopy_length (data : List α) (s e : Nat)
    (hse : s ≤ e) (he : e ≤ data.length) :
    (compactCopy data s e).length = data.length := by
  simp only [compactCopy, List.length_append, List.length_drop,
    List.length_take]
  omega

/-- One mutation of a `Buffer` through any of its public operations, with the
producer/consumer contract (`count ≤` offered length; the producer rewrites
the free region in place, keeping its length) as side conditions. -/
inductive Step {α : Type} : Buffer α → Buffer α → Prop where
  | read {ε σ : Type} (f : SrcStep α ε σ) (s : σ) (b : Buffer α)
      (n : Nat) (repl : List α) (s' : σ)
      (hf : f s b.asWrite = .ok (n, repl, s'))
      (hn : n ≤ b.asWrite.length) (hrepl : repl.length = b.asWrite.length) :
      Step b (b.read f s).2.1
  | write {ε κ : Type} (g : SnkStep α ε κ) (k : κ) (b : Buffer α)
      (n : Nat) (k' : κ)
      (hg : g k b.asRead = .ok (n, k')) (hn : n ≤ b.asRead.length) :
      Step b (b.write g k).2.1
  | compactC (b : Buffer α) : Step b (b.compactWith compactCopy)
  | compactS (b : Buffer α) : Step b (b.compactWith compactSwap)
  | clear (b : Buffer α) : Step b b.clear
  | asSource (b : Buffer α) : Step b b.asSource
  | copyInto (b : Buffer α) (dest : List α) : Step b (b.copyInto dest).2.2
  | copyFrom (b : Buffer α) (src : List α) : Step b (b.copyFrom src).2

/-- Any finite sequence of operations. -/
def Reach {α : Type} : Buffer α → Buffer α → Prop :=
  Relation.ReflTransGen Step

theorem step_preserves_inv {α : Type} {b b' : Buffer α}
    (hb : Inv b) (hs : Step b b') : Inv b' := by
  obtain ⟨h1, h2⟩ := hb
  simp only [Inv, Buffer.position, Buffer.limit] at h1 h2 ⊢
  cases hs with
  | read f s b n repl s' hf hn hrepl =>
      rw [Buffer.asWrite_length] at hn hrepl
      simp only [Buffer.position, Buffer.limit] at hn hrepl
      simp only [Buffer.read, hf, Buffer.position, Buffer.limit,
        List.length_append, List.length_take]
      omega
  | write g k b n k' hg hn =>
      rw [Buffer.asRead_length] at hn
      simp only [Buffer.position, Buffer.limit] at hn
      simp only [Buffer.write, hg, Buffer.position, Buffer.limit]
      omega
  | compactC b =>
      have hl := compactCopy_length b.data b.position b.limit h1 h2
      simp only [Buffer.position, Buffer.limit] at hl
      simp only [Buffer.compactWith, Buffer.position, Buffer.limit, hl]
      omega
  | compactS b =>
      have hl := compactSwap_length b.data b.position b.limit
      simp only [Buffer.position, Buffer.limit] at hl
      simp only [Buffer.compactWith, Buffer.position, Buffer.limit, hl]
      omega
  | clear b => exact ⟨Nat.le_refl 0, Nat.zero_le _⟩
  | asSource b => exact ⟨Nat.zero_le _, Nat.le_refl _⟩
  | copyInto b dest =>
      have hr := b.asRead_length
      simp only [Buffer.position, Buffer.limit] at hr
      simp only [Buffer.copyInto, Buffer.copySlice, Buffer.position,
        Buffer.limit]
      omega
  | copyFrom b src =>
      have hw := b.asWrite_length
      simp only [Buffer.position, Buffer.limit] at hw
      simp only [Buffer.copyFrom, Buffer.copySlice, Buffer.position,
        Buffer.limit, Buffer.asWrite, List.length_append, List.length_take,
        List.length_drop]
      omega

/-- C1: for every Buffer and every sequence of operations (read with a
producer whose returned count is at most the offered destination length,
write with a consumer whose returned count is at most the offered source
length, compact with either configured strategy, clear, copy_into, copy_from,
as_source), every reachable Buffer state satisfies
`0 ≤ position ≤ limit ≤ len`. -/
theorem c1_reachable_invariant {α : Type} (b b' : Buffer α)
    (hb : Inv b) (hr : Reach b b') : Inv b' := by
  induction hr with
  | refl => exact hb
  | tail _ hstep ih => exact step_preserves_inv ih hstep

theorem c1_reachable_invariant_witness :
    Inv ((Buffer.new ([1, 2] : List Nat)).asSource) :=
  c1_reachable_invariant (Buffer.new [1, 2]) _ (by decide)
    (Relation.ReflTransGen.single (Step.asSource _))

theorem listSwap_eq (l : List α) (i j : Nat) (hi : i < l.length)
    (hj : j < l.length) :
    listSwap l i j = (l.set i l[j]).set j l[i] := by
  unfold listSwap
  rw [List.getElem?_eq_getElem hi, List.getElem?_eq_getElem hj]

/-- Behaviour of the swap loop of `SNone::compact_within`: after `k` steps the
first `k` slots hold the elements shifted down by `s` and slots from `s + k`
on are untouched. -/
theorem swapIter_spec (s : Nat) (hs : 1 ≤ s) :
    ∀ (k : Nat) (data : List α), s + k ≤ data.length →
      (((List.range k).foldl (fun d i => listSwap d i (s + i)) data).length
          = data.length) ∧
      (∀ i, i < k →
        ((List.range k).foldl (fun d i => listSwap d i (s + i)) data)[i]?
          = data[s + i]?) ∧
      (∀ j, s + k ≤ j →
        ((List.range k).foldl (fun d i => listSwap d i (s + i)) data)[j]?
          = data[j]?) := by
  intro k
  induction k with
  | zero =>
      intro data _
      exact ⟨rfl, fun i hi => absurd hi (Nat.not_lt_zero i), fun j _ => rfl⟩
  | succ k ih =>
      intro data hlen
      obtain ⟨ihl, ihfront, ihback⟩ := ih data (by omega)
      rw [List.range_succ, List.foldl_append, List.foldl_cons, List.foldl_nil]
      set D := (List.range k).foldl (fun d i => listSwap d i (s + i)) data
        with hD
      have hkD : k < D.length := by omega
      have hsD : s + k < D.length := by omega
      rw [listSwap_eq D k (s + k) hkD hsD]
      refine ⟨by simp [ihl], ?_, ?_⟩
      · intro i hi
        rcases Nat.lt_or_ge i k with hik | hik
        · rw [List.getElem?_set_ne (by omega), List.getElem?_set_ne (by omega)]
          exact ihfront i hik
        · have hik2 : i = k := by omega
          subst hik2
          rw [List.getElem?_set_ne (by omega), List.getElem?_set_self hkD]
          have := ihback (s + i) (by omega)
          rw [List.getElem?_eq_getElem hsD] at this
          exact this
      · intro j hj
        rw [List.getElem?_set_ne (by omega), List.getElem?_set_ne (by omega)]
        exact ihback j (by omega)

/-- The swap-rotation compaction puts the unread segment at the front. -/
theorem compactSwap_front (data : List α) (s e : Nat)
    (hse : s ≤ e) (he : e ≤ data.length) :
    ∀ i, i < e - s → (compactSwap data s e)[i]? = data[s + i]? := by
  intro i hi
  unfold compactSwap
  split
  · rename_i h
    rcases h with h | h
    · subst h; rw [Nat.zero_add]
    · omega
  · rename_i h
    have hs : 1 ≤ s := by omega
    exact (swapIter_spec s hs (e - s) data (by omega)).2.1 i hi

/-- The copy-shift compaction puts the unread segment at the front. -/
theorem compactCopy_front (data : List α) (s e : Nat)
    (hse : s ≤ e) (he : e ≤ data.length) :
    ∀ i, i < e - s → (compactCopy data s e)[i]? = data[s + i]? := by
  intro i hi
  have hseg : ((data.take e).drop s).length = e - s := by
    simp; omega
  unfold compactCopy
  rw [List.getElem?_append_left (by omega), List.getElem?_drop,
    List.getElem?_take]
  split
  · rfl
  · omega

/-- Any compaction strategy that moves the unread segment to the front
preserves `as_read()` through `Buffer::compact` (which afterwards sets
`span = (0, limit - position)`). -/
theorem compactWith_asRead (cs : List α → Nat → Nat → List α)
    (b : Buffer α) (hb : Inv b)
    (hfront : ∀ i, i < b.limit - b.position →
      (cs b.data b.position b.limit)[i]? = b.data[b.position + i]?) :
    (b.compactWith cs).asRead = b.asRead := by
  obtain ⟨h1, h2⟩ := hb
  simp only [Buffer.position, Buffer.limit] at h1 h2 hfront
  apply List.ext_getElem?
  intro i
  simp only [Buffer.compactWith, Buffer.asRead, Buffer.position, Buffer.limit,
    List.getElem?_drop, List.getElem?_take, List.drop_zero]
  rcases Nat.lt_or_ge i (b.span.2 - b.span.1) with hi | hi
  · rw [if_pos hi, hfront i hi, if_pos (by omega)]
  · rw [if_neg (by omega), if_neg (by omega)]

/-- C3: for every buffer state satisfying the span invariant and for each
configured compaction policy (copy-based `SCopy` and swap-based `SNone`), the
element sequence `as_read()` after `compact()` equals the one before, and
`compact()` only changes the offsets: position becomes `0` and limit becomes
`limit - position`. -/
theorem c3_compact_preserves_content (b : Buffer α) (hb : Inv b) :
    ((b.compactWith compactCopy).asRead = b.asRead ∧
      (b.compactWith compactCopy).position = 0 ∧
      (b.compactWith compactCopy).limit = b.limit - b.position) ∧
    ((b.compactWith compactSwap).asRead = b.asRead ∧
      (b.compactWith compactSwap).position = 0 ∧
      (b.compactWith compactSwap).limit = b.limit - b.position) := by
  obtain ⟨h1, h2⟩ := hb
  refine ⟨⟨?_, rfl, rfl⟩, ⟨?_, rfl, rfl⟩⟩
  · exact compactWith_asRead compactCopy b ⟨h1, h2⟩
      (compactCopy_front b.data b.position b.limit h1 h2)
  · exact compactWith_asRead compactSwap b ⟨h1, h2⟩
      (compactSwap_front b.data b.position b.limit h1 h2)

theorem c3_compact_preserves_content_witness :
    (((⟨[1, 2, 3, 4], (1, 3)⟩ : Buffer Nat).compactWith compactCopy).asRead
        = (⟨[1, 2, 3, 4], (1, 3)⟩ : Buffer Nat).asRead) ∧
    (((⟨[1, 2, 3, 4], (1, 3)⟩ : Buffer Nat).compactWith compactSwap).asRead
        = (⟨[1, 2, 3, 4], (1, 3)⟩ : Buffer Nat).asRead) :=
  ⟨(c3_compact_preserves_content ⟨[1, 2, 3, 4], (1, 3)⟩ (by decide)).1.1,
   (c3_compact_preserves_content ⟨[1, 2, 3, 4], (1, 3)⟩ (by decide)).2.1⟩

/-- C4: transfuse with source `[1,2,3,4,5]`, sink capacity 4, empty working
buffer of capacity 3 returns `Ok(4)`; afterwards the sink's available region
holds `[1,2,3,4]`, the source's available region is empty, and the working
buffer's available region still holds `[5]`. -/
theorem c4_transfuse_short_sink :
    transfuseRec compactCopy bufSrc (bufSnk (ε := ErrKind)) 10 false 0
        (Buffer.new [0, 0, 0])
        ((Buffer.new [1, 2, 3, 4, 5]).asSource)
        (Buffer.new [0, 0, 0, 0]) =
      some (.ok (4, ⟨[5, 5, 3], (0, 1)⟩, ⟨[1, 2, 3, 4, 5], (5, 5)⟩,
        ⟨[1, 2, 3, 4], (0, 4)⟩)) ∧
    (⟨[1, 2, 3, 4], (0, 4)⟩ : Buffer Nat).asRead = [1, 2, 3, 4] ∧
    (⟨[1, 2, 3, 4, 5], (5, 5)⟩ : Buffer Nat).asRead = [] ∧
    (⟨[5, 5, 3], (0, 1)⟩ : Buffer Nat).asRead = [5] := by
  refine ⟨rfl, rfl, rfl, rfl⟩

/-- The body of `EachConsecutive::source`'s `loop` (flow/each_consecutive.rs),
run while a window buffer is held: place the window into the destination slot
when full, otherwise pull from upstream; a zero-count pull ends the loop
(emitting a final short batch when the window is non-empty), and an exhausted
destination puts the window back for the next call. -/
def ecLoop (f : SrcStep α ε σ) :
    Nat → σ → Buffer α → List (Buffer α) → Nat →
      Option (Except ε (Nat × List (Buffer α) × (σ × Option (Buffer α))))
  | 0, _, _, _, _ => none
  | fuel + 1, s, buf, into, target =>
    if target < into.length then
      if buf.isFull then
        ecLoop f fuel s buf.clear (into.set target buf) (target + 1)
      else
        match buf.read f s with
        | (.error e, _, _) => some (.error e)
        | (.ok n, buf2, s2) =>
          if n = 0 then
            if buf2.isEmpty then some (.ok (target, into, (s2, none)))
            else some (.ok (target + 1, into.set target buf2, (s2, none)))
          else ecLoop f fuel s2 buf2 into target
    else some (.ok (target, into, (s, some buf)))

/-- `EachConsecutive::source`: state is the upstream producer plus
`Option<Buffer>`; when the option is empty (`Done`) the call returns `Ok(0)`
immediately, otherwise the loop runs. -/
def ecSource (f : SrcStep α ε σ) (fuel : Nat) :
    σ × Option (Buffer α) → List (Buffer α) →
      Option (Except ε (Nat × List (Buffer α) × (σ × Option (Buffer α))))
  | (s, none), into => some (.ok (0, into, (s, none)))
  | (s, some buf), into => ecLoop f fuel s buf into 0

/-- `Chunked::read` (stream/chunk.rs): fill the window from upstream; emit a
cloned window per destination slot whenever it fills; when upstream returns 0
with a non-empty, non-full window, fail with the broken-pipe error; when it
returns 0 with an empty window, succeed with the batches emitted so far. -/
def chunkedGo (f : SrcStep α ErrKind σ) :
    Nat → σ → Buffer α → List (Buffer α) → Nat →
      Option (Except ErrKind (Nat × List (Buffer α) × σ × Buffer α))
  | 0, _, _, _, _ => none
  | fuel + 1, s, buffer, intoSink, idx =>
    if idx < intoSink.length then
      match buffer.read f s with
      | (.error e, _, _) => some (.error e)
      | (.ok n, buf2, s2) =>
        if buf2.isFull then
          chunkedGo f fuel s2 buf2.clear (intoSink.set idx buf2) (idx + 1)
        else if n = 0 then
          if ¬ buf2.isEmpty then some (.error .brokenPipe)
          else some (.ok (idx, intoSink, s2, buf2))
        else chunkedGo f fuel s2 buf2 intoSink idx
    else some (.ok (idx, intoSink, s, buffer))

/-- C7: an `EachConsecutive` flow over upstream `[1,2,3,4,5]`, window
capacity 3, destination of 3 slots yields `Ok(2)` with slot 0's available
region `[1,2,3]`, slot 1's available region `[4,5]`, slot 2 untouched; and
from the `Done` state (no window buffer) every call returns `Ok(0)` with the
state unchanged, for any upstream, without consulting it. -/
theorem c7_each_consecutive :
    (ecSource (bufSrc (ε := ErrKind)) 20
        ((⟨[1, 2, 3, 4, 5], (0, 5)⟩ : Buffer Nat), some (Buffer.new [0, 0, 0]))
        [Buffer.new [0, 0, 0], Buffer.new [0, 0, 0], Buffer.new [0, 0, 0]] =
      some (.ok (2,
        [⟨[1, 2, 3], (0, 3)⟩, ⟨[4, 5, 3], (0, 2)⟩, Buffer.new [0, 0, 0]],
        ((⟨[1, 2, 3, 4, 5], (5, 5)⟩ : Buffer Nat), none)))) ∧
    (⟨[1, 2, 3], (0, 3)⟩ : Buffer Nat).asRead = [1, 2, 3] ∧
    (⟨[4, 5, 3], (0, 2)⟩ : Buffer Nat).asRead = [4, 5] ∧
    ∀ (α ε σ : Type) (f : SrcStep α ε σ) (fuel : Nat) (s : σ)
        (into : List (Buffer α)),
      ecSource f fuel (s, none) into = some (.ok (0, into, (s, none))) := by
  exact ⟨rfl, rfl, rfl, fun α ε σ f fuel s into => rfl⟩

/-- C8: the strict `Chunk` variant over upstream `[1..8]` with window size 3,
reading one slot at a time: the first call yields `[1,2,3]`, the second
`[4,5,6]`, and the third fails with the broken-pipe error. -/
theorem c8_chunk_underflow :
    chunkedGo bufSrc 20 ((Buffer.new [1, 2, 3, 4, 5, 6, 7, 8]).asSource)
        (Buffer.new [0, 0, 0]) [Buffer.new [0, 0, 0]] 0 =
      some (.ok (1, [⟨[1, 2, 3], (0, 3)⟩], ⟨[1, 2, 3, 4, 5, 6, 7, 8], (3, 8)⟩,
        ⟨[1, 2, 3], (0, 0)⟩)) ∧
    chunkedGo bufSrc 20 (⟨[1, 2, 3, 4, 5, 6, 7, 8], (3, 8)⟩ : Buffer Nat)
        ⟨[1, 2, 3], (0, 0)⟩ [⟨[1, 2, 3], (0, 3)⟩] 0 =
      some (.ok (1, [⟨[4, 5, 6], (0, 3)⟩], ⟨[1, 2, 3, 4, 5, 6, 7, 8], (6, 8)⟩,
        ⟨[4, 5, 6], (0, 0)⟩)) ∧
    chunkedGo bufSrc 20 (⟨[1, 2, 3, 4, 5, 6, 7, 8], (6, 8)⟩ : Buffer Nat)
        ⟨[4, 5, 6], (0, 0)⟩ [⟨[4, 5, 6], (0, 3)⟩] 0 =
      some (.error .brokenPipe) ∧
    (⟨[1, 2, 3], (0, 3)⟩ : Buffer Nat).asRead = [1, 2, 3] ∧
    (⟨[4, 5, 6], (0, 3)⟩ : Buffer Nat).asRead = [4, 5, 6] := by
  exact ⟨rfl, rfl, rfl, rfl, rfl⟩

/-- C10: a zero-length destination slice makes both windowing combinators
return `Ok(0)` without touching the upstream producer or any internal state:
`EachConsecutive::source` puts its retained window back unchanged, and
`Chunked::read` leaves its window and upstream untouched. -/
theorem c10_empty_destination_frame :
    (∀ (α ε σ : Type) (f : SrcStep α ε σ) (fuel : Nat) (s : σ)
        (buf : Buffer α),
      ecSource f (fuel + 1) (s, some buf) [] =
        some (.ok (0, [], (s, some buf)))) ∧
    (∀ (α σ : Type) (f : SrcStep α ErrKind σ) (fuel : Nat) (s : σ)
        (buffer : Buffer α),
      chunkedGo f (fuel + 1) s buffer [] 0 =
        some (.ok (0, [], s, buffer))) := by
  exact ⟨fun α ε σ f fuel s buf => rfl, fun α σ f fuel s buffer => rfl⟩

/-- C9: if the producer's `source` call inside `Buffer::read`
(resp. the consumer's `sink` call inside `Buffer::write`) returns an error,
then `read` (resp. `write`) returns the very same error and the buffer's
`(position, limit)` span is untouched — `tap_ok` applies the offset change
only on `Ok`. -/
theorem c9_error_propagation :
    (∀ (α ε σ : Type) (b : Buffer α) (f : SrcStep α ε σ) (s : σ) (e : ε),
      f s b.asWrite = .error e →
        (b.read f s).1 = .error e ∧ (b.read f s).2.1.span = b.span) ∧
    (∀ (α ε κ : Type) (b : Buffer α) (g : SnkStep α ε κ) (k : κ) (e : ε),
      g k b.asRead = .error e →
        (b.write g k).1 = .error e ∧ (b.write g k).2.1.span = b.span) := by
  constructor
  · intro α ε σ b f s e hf
    simp [Buffer.read, hf]
  · intro α ε κ b g k e hg
    simp [Buffer.write, hg]

theorem c9_error_propagation_witness :
    (((Buffer.new ([1, 2] : List Nat)).read
        (fun (_ : Unit) (_ : List Nat) =>
          (.error .other : Except ErrKind (Nat × List Nat × Unit))) ()).1 =
      .error .other ∧
    ((Buffer.new ([1, 2] : List Nat)).read
        (fun (_ : Unit) (_ : List Nat) =>
          (.error .other : Except ErrKind (Nat × List Nat × Unit))) ()).2.1.span =
      (Buffer.new ([1, 2] : List Nat)).span) ∧
    (((Buffer.new ([1, 2] : List Nat)).write
        (fun (_ : Unit) (_ : List Nat) =>
          (.error .other : Except ErrKind (Nat × Unit))) ()).1 =
      .error .other ∧
    ((Buffer.new ([1, 2] : List Nat)).write
        (fun (_ : Unit) (_ : List Nat) =>
          (.error .other : Except ErrKind (Nat × Unit))) ()).2.1.span =
      (Buffer.new ([1, 2] : List Nat)).span) :=
  ⟨c9_error_propagation.1 Nat ErrKind Unit (Buffer.new [1, 2]) _ () .other rfl,
   c9_error_propagation.2 Nat ErrKind Unit (Buffer.new [1, 2]) _ () .other rfl⟩

/-- In a producer-invocation log, a zero-count entry can only be the final
entry. -/
def ZeroLastLog (new : List (Nat × Nat)) : Prop :=
  ∀ (i : Nat) (dn : Nat × Nat), new[i]? = some dn → dn.2 = 0 →
    i = new.length - 1

/-- A `transfuse_rec` run entered with `source_done = true` never consults
the producer again: the invocation log and the producer state are returned
untouched. -/
theorem transfuseRec_done_log {α ε σ κ : Type}
    (cs : List α → Nat → Nat → List α) (f : SrcStep α ε σ)
    (g : SnkStep α ε κ) :
    ∀ (fuel total : Nat) (b : Buffer α) (s : σ) (log : List (Nat × Nat))
      (k : κ) (t : Nat) (b1 : Buffer α) (s1 : σ) (log1 : List (Nat × Nat))
      (k1 : κ),
      transfuseRec cs (loggedSrc f) g fuel true total b (s, log) k =
        some (.ok (t, b1, (s1, log1), k1)) →
      log1 = log ∧ s1 = s := by
  intro fuel
  induction fuel with
  | zero => intro total b s log k t b1 s1 log1 k1 h; simp [transfuseRec] at h
  | succ fuel ih =>
      intro total b s log k t b1 s1 log1 k1 h
      simp only [transfuseRec, cond_true] at h
      rcases hg : (b.compactWith cs).write g k with ⟨r, b3, k3⟩
      rw [hg] at h
      rcases r with e | w
      · simp at h
      · simp only at h
        split at h
        · rename_i hzs
          simp only [Option.some.injEq, Except.ok.injEq, Prod.mk.injEq] at h
          exact ⟨h.2.2.1.2.symm, h.2.2.1.1.symm⟩
        · exact ih _ _ _ _ _ _ _ _ _ _ h

theorem zeroLastLog_single (x : Nat × Nat) : ZeroLastLog [x] := by
  intro i dn hget _
  cases i with
  | zero => rfl
  | succ j => simp at hget

theorem zeroLastLog_cons (d n : Nat) (rest : List (Nat × Nat)) (hn : n ≠ 0)
    (hrest : ZeroLastLog rest) : ZeroLastLog ((d, n) :: rest) := by
  intro i dn hget hz
  cases i with
  | zero =>
      rw [List.getElem?_cons_zero, Option.some.injEq] at hget
      rw [← hget] at hz
      exact absurd hz hn
  | succ j =>
      rw [List.getElem?_cons_succ] at hget
      have hj := hrest j dn hget hz
      have hjlen : j < rest.length :=
        (List.getElem?_eq_some_iff.mp hget).1
      simp only [List.length_cons]
      omega

theorem read_logged_error {α ε σ : Type} (f : SrcStep α ε σ) (b : Buffer α)
    (s : σ) (log : List (Nat × Nat)) (e : ε)
    (hf : f s b.asWrite = .error e) :
    b.read (loggedSrc f) (s, log) = (.error e, b, (s, log)) := by
  simp [Buffer.read, loggedSrc, hf]

theorem read_logged_ok {α ε σ : Type} (f : SrcStep α ε σ) (b : Buffer α)
    (s : σ) (log : List (Nat × Nat)) (n : Nat) (repl : List α) (s2 : σ)
    (hf : f s b.asWrite = .ok (n, repl, s2)) :
    b.read (loggedSrc f) (s, log) =
      (.ok n, ⟨b.data.take b.limit ++ repl, (b.position, b.limit + n)⟩,
        (s2, log ++ [(b.asWrite.length, n)])) := by
  simp [Buffer.read, loggedSrc, hf]

/-- In a `transfuse_rec` run entered with `source_done = false`, the
producer-invocation log grows by a suffix in which a zero-count entry can
only be the last one: once a producer invocation returns `Ok(0)` — against
any destination — `transfuse_rec` marks it exhausted and never consults it
again in that run. -/
theorem transfuseRec_log_spec {α ε σ κ : Type}
    (cs : List α → Nat → Nat → List α) (f : SrcStep α ε σ)
    (g : SnkStep α ε κ) :
    ∀ (fuel total : Nat) (b : Buffer α) (s : σ) (log : List (Nat × Nat))
      (k : κ) (t : Nat) (b1 : Buffer α) (s1 : σ) (log1 : List (Nat × Nat))
      (k1 : κ),
      transfuseRec cs (loggedSrc f) g fuel false total b (s, log) k =
        some (.ok (t, b1, (s1, log1), k1)) →
      ∃ new, log1 = log ++ new ∧ ZeroLastLog new := by
  intro fuel
  induction fuel with
  | zero =>
      intro total b s log k t b1 s1 log1 k1 h
      simp [transfuseRec] at h
  | succ fuel ih =>
      intro total b s log k t b1 s1 log1 k1 h
      simp only [transfuseRec, cond_false] at h
      rcases hf : f s (b.compactWith cs).asWrite with e | r
      · rw [read_logged_error f _ s log e hf] at h
        simp at h
      · obtain ⟨n, repl, s2⟩ := r
        rw [read_logged_ok f _ s log n repl s2 hf] at h
        dsimp only at h
        rcases hg : Buffer.write g k
            ⟨(b.compactWith cs).data.take (b.compactWith cs).limit ++ repl,
              ((b.compactWith cs).position, (b.compactWith cs).limit + n)⟩
          with ⟨wr, b3, k3⟩
        rw [hg] at h
        rcases wr with e | w
        · simp at h
        · simp only at h
          by_cases hzz : n = 0 ∧ w = 0
          · rw [if_pos hzz] at h
            simp only [Option.some.injEq, Except.ok.injEq,
              Prod.mk.injEq] at h
            exact ⟨[((b.compactWith cs).asWrite.length, n)],
              h.2.2.1.2.symm, zeroLastLog_single _⟩
          · rw [if_neg hzz] at h
            by_cases hn : n = 0
            · rw [show (n == 0) = true by simp [hn]] at h
              have hd := transfuseRec_done_log cs f g fuel (total + w) b3 s2
                (log ++ [((b.compactWith cs).asWrite.length, n)]) k3
                t b1 s1 log1 k1 h
              exact ⟨[((b.compactWith cs).asWrite.length, n)], hd.1,
                zeroLastLog_single _⟩
            · rw [show (n == 0) = false by simp [hn]] at h
              obtain ⟨rest, hr1, hr2⟩ := ih (total + w) b3 s2
                (log ++ [((b.compactWith cs).asWrite.length, n)]) k3
                t b1 s1 log1 k1 h
              refine ⟨((b.compactWith cs).asWrite.length, n) :: rest, ?_,
                zeroLastLog_cons _ n rest hn hr2⟩
              rw [hr1, List.append_assoc]
              rfl

/-- C5: in a single transfuse run, once the producer has returned `Ok(0)`
against a non-empty destination, no later iteration invokes its `source`
method again: in the recorded invocation log, a zero-count entry with a
non-empty offered destination is necessarily the final entry. -/
theorem c5_exhausted_producer_never_reinvoked {α ε σ κ : Type}
    (cs : List α → Nat → Nat → List α) (f : SrcStep α ε σ)
    (g : SnkStep α ε κ) (fuel total : Nat) (b : Buffer α) (s : σ) (k : κ)
    (t : Nat) (b1 : Buffer α) (s1 : σ) (log : List (Nat × Nat)) (k1 : κ)
    (hrun : transfuseRec cs (loggedSrc f) g fuel false total b (s, []) k =
      some (.ok (t, b1, (s1, log), k1)))
    (i : Nat) (dn : Nat × Nat) (hget : log[i]? = some dn)
    (hzero : dn.2 = 0) (hne : dn.1 ≠ 0) :
    i = log.length - 1 := by
  obtain ⟨new, h1, h2⟩ :=
    transfuseRec_log_spec cs f g fuel total b s [] k t b1 s1 log k1 hrun
  rw [List.nil_append] at h1
  subst h1
  exact h2 i dn hget hzero

theorem c5_exhausted_producer_never_reinvoked_witness :
    (transfuseRec compactCopy (loggedSrc bufSrc) (bufSnk (ε := ErrKind)) 10
        false 0 (Buffer.new [0, 0, 0])
        ((Buffer.new [1, 2, 3, 4, 5]).asSource, [])
        (Buffer.new [0, 0, 0, 0]) =
      some (.ok (4, ⟨[5, 5, 3], (0, 1)⟩,
        ((⟨[1, 2, 3, 4, 5], (5, 5)⟩ : Buffer Nat), [(3, 3), (3, 2), (2, 0)]),
        ⟨[1, 2, 3, 4], (0, 4)⟩))) ∧
    2 = [((3 : Nat), (3 : Nat)), (3, 2), (2, 0)].length - 1 := by
  have hrun :
      transfuseRec compactCopy (loggedSrc bufSrc) (bufSnk (ε := ErrKind)) 10
          false 0 (Buffer.new [0, 0, 0])
          ((Buffer.new [1, 2, 3, 4, 5]).asSource, [])
          (Buffer.new [0, 0, 0, 0]) =
        some (.ok (4, ⟨[5, 5, 3], (0, 1)⟩,
          ((⟨[1, 2, 3, 4, 5], (5, 5)⟩ : Buffer Nat),
            [(3, 3), (3, 2), (2, 0)]),
          ⟨[1, 2, 3, 4], (0, 4)⟩)) := rfl
  exact ⟨hrun,
    c5_exhausted_producer_never_reinvoked compactCopy bufSrc
      (bufSnk (ε := ErrKind)) 10 0 _ _ _ _ _ _ _ _ hrun
      2 (2, 0) rfl rfl (by decide)⟩

/-- C2 counterexample: a transfuse run whose working buffer starts full.  On
the first iteration the free region is empty, so the producer is offered a
zero-length destination and returns `Ok(0)`; the run then continues (the
consumer still accepts 2 elements, the returned total is 2), yet the
invocation log ends at `[(0, 0)]`: the producer — which still holds one
available element — is never invoked again, contradicting the claim that it
is not marked exhausted and that `read_in` is invoked on the next
iteration. -/
theorem c2_counterexample_empty_destination :
    transfuseRec compactCopy (loggedSrc bufSrc) (bufSnk (ε := ErrKind)) 10
        false 0 (⟨[9, 9], (0, 2)⟩ : Buffer Nat)
        ((⟨[7], (0, 1)⟩ : Buffer Nat), []) (Buffer.new [0, 0, 0, 0, 0]) =
      some (.ok (2, ⟨[9, 9], (0, 0)⟩,
        ((⟨[7], (0, 1)⟩ : Buffer Nat), [(0, 0)]),
        ⟨[9, 9, 0, 0, 0], (0, 2)⟩)) ∧
    (⟨[7], (0, 1)⟩ : Buffer Nat).available = 1 :=
  ⟨rfl, rfl⟩

/-- C2 (amended): `transfuse_rec` treats the producer as permanently
exhausted after any iteration whose read count is `0`, including when the
offered destination was zero-length: in the recorded invocation log, any
zero-count entry is the final entry. -/
theorem c2_amended_any_zero_read_is_final {α ε σ κ : Type}
    (cs : List α → Nat → Nat → List α) (f : SrcStep α ε σ)
    (g : SnkStep α ε κ) (fuel total : Nat) (b : Buffer α) (s : σ) (k : κ)
    (t : Nat) (b1 : Buffer α) (s1 : σ) (log : List (Nat × Nat)) (k1 : κ)
    (hrun : transfuseRec cs (loggedSrc f) g fuel false total b (s, []) k =
      some (.ok (t, b1, (s1, log), k1)))
    (i : Nat) (dn : Nat × Nat) (hget : log[i]? = some dn)
    (hzero : dn.2 = 0) :
    i = log.length - 1 := by
  obtain ⟨new, h1, h2⟩ :=
    transfuseRec_log_spec cs f g fuel total b s [] k t b1 s1 log k1 hrun
  rw [List.nil_append] at h1
  subst h1
  exact h2 i dn hget hzero

theorem c2_amended_any_zero_read_is_final_witness :
    (transfuseRec compactCopy (loggedSrc bufSrc) (bufSnk (ε := ErrKind)) 10
        false 0 (⟨[9, 9], (0, 2)⟩ : Buffer Nat)
        ((⟨[7], (0, 1)⟩ : Buffer Nat), []) (Buffer.new [0, 0, 0, 0, 0]) =
      some (.ok (2, ⟨[9, 9], (0, 0)⟩,
        ((⟨[7], (0, 1)⟩ : Buffer Nat), [(0, 0)]),
        ⟨[9, 9, 0, 0, 0], (0, 2)⟩))) ∧
    0 = [((0 : Nat), (0 : Nat))].length - 1 := by
  have hrun :
      transfuseRec compactCopy (loggedSrc bufSrc) (bufSnk (ε := ErrKind)) 10
          false 0 (⟨[9, 9], (0, 2)⟩ : Buffer Nat)
          ((⟨[7], (0, 1)⟩ : Buffer Nat), []) (Buffer.new [0, 0, 0, 0, 0]) =
        some (.ok (2, ⟨[9, 9], (0, 0)⟩,
          ((⟨[7], (0, 1)⟩ : Buffer Nat), [(0, 0)]),
          ⟨[9, 9, 0, 0, 0], (0, 2)⟩)) := rfl
  exact ⟨hrun,
    c2_amended_any_zero_read_is_final compactCopy bufSrc
      (bufSnk (ε := ErrKind)) 10 0 _ _ _ _ _ _ _ _ hrun
      0 (0, 0) rfl rfl⟩

theorem Buffer.asRead_length_inv {α : Type} (b : Buffer α) (hb : Inv b) :
    b.asRead.length = b.available := by
  obtain ⟨h1, h2⟩ := hb
  rw [Buffer.asRead_length]
  simp only [Buffer.available, Buffer.position, Buffer.limit] at *
  omega

/-- What `copy_into` does to a source buffer satisfying the invariant. -/
theorem copyInto_spec {α : Type} (s : Buffer α) (dest : List α)
    (hs : Inv s) :
    (s.copyInto dest).1 = min dest.length s.available ∧
    (s.copyInto dest).2.1.length = dest.length ∧
    Inv (s.copyInto dest).2.2 ∧
    (s.copyInto dest).2.2.available =
      s.available - min dest.length s.available := by
  obtain ⟨h1, h2⟩ := hs
  have hrl := s.asRead_length_inv ⟨h1, h2⟩
  simp only [Buffer.available, Buffer.position, Buffer.limit] at *
  refine ⟨?_, ?_, ?_, ?_⟩ <;>
    simp only [Buffer.copyInto, Buffer.copySlice, Inv, Buffer.available,
      Buffer.position, Buffer.limit, List.length_append, List.length_take,
      List.length_drop, hrl] <;> omega

/-- What `copy_from` does to a sink buffer satisfying the invariant. -/
theorem copyFrom_spec {α : Type} (k : Buffer α) (src : List α)
    (hk : Inv k) :
    (k.copyFrom src).1 = min k.free src.length ∧
    Inv (k.copyFrom src).2 ∧
    (k.copyFrom src).2.free = k.free - min k.free src.length := by
  obtain ⟨h1, h2⟩ := hk
  simp only [Buffer.position, Buffer.limit] at h1 h2
  refine ⟨?_, ?_, ?_⟩ <;>
    simp only [Buffer.copyFrom, Buffer.copySlice, Inv, Buffer.free,
      Buffer.len, Buffer.asWrite, Buffer.position, Buffer.limit,
      List.length_append, List.length_take, List.length_drop] <;> omega

/-- What `compact` (with the `SCopy` strategy) does to a buffer satisfying
the invariant. -/
theorem compactCopy_buffer_spec {α : Type} (b : Buffer α) (hb : Inv b) :
    Inv (b.compactWith compactCopy) ∧
    (b.compactWith compactCopy).position = 0 ∧
    (b.compactWith compactCopy).available = b.available ∧
    (b.compactWith compactCopy).data.length = b.data.length := by
  obtain ⟨h1, h2⟩ := hb
  simp only [Buffer.position, Buffer.limit] at h1 h2
  have hl := compactCopy_length b.data b.span.1 b.span.2 h1 h2
  refine ⟨?_, rfl, ?_, ?_⟩ <;>
    simp only [Inv, Buffer.compactWith, Buffer.available, Buffer.position,
      Buffer.limit, hl] <;> omega

theorem read_bufSrc {α ε : Type} (b s : Buffer α) :
    b.read (bufSrc (ε := ε)) s =
      (.ok (s.copyInto b.asWrite).1,
        ⟨b.data.take b.limit ++ (s.copyInto b.asWrite).2.1,
          (b.position, b.limit + (s.copyInto b.asWrite).1)⟩,
        (s.copyInto b.asWrite).2.2) := rfl

theorem write_bufSnk {α ε : Type} (b k : Buffer α) :
    b.write (bufSnk (ε := ε)) k =
      (.ok (k.copyFrom b.asRead).1,
        ⟨b.data, (b.position + (k.copyFrom b.asRead).1, b.limit)⟩,
        (k.copyFrom b.asRead).2) := rfl

/-- Fueled termination of `transfuse_rec` for buffer-backed producer and
consumer: `source.available + sink.free + 1` rounds always suffice to reach
the double-zero check, because every non-final round moves at least one
element out of the source or into the sink. -/
theorem transfuse_fueled {α : Type} :
    ∀ (fuel : Nat) (done : Bool) (total : Nat) (b s k : Buffer α),
      Inv b → Inv s → Inv k → s.available + k.free + 1 ≤ fuel →
      ∃ t b1 s1 k1,
        transfuseRec compactCopy (bufSrc (ε := ErrKind)) bufSnk fuel done
            total b s k = some (.ok (t, b1, s1, k1)) := by
  intro fuel
  induction fuel with
  | zero => intro done total b s k _ _ _ hf; omega
  | succ fuel ih =>
      intro done total b s k hb hs hk hfuel
      obtain ⟨hBinv, hBpos, hBav, hBlen⟩ := compactCopy_buffer_spec b hb
      cases done with
      | true =>
          simp only [transfuseRec, cond_true]
          rw [write_bufSnk]
          obtain ⟨hw1, hw2, hw3⟩ :=
            copyFrom_spec k (b.compactWith compactCopy).asRead hk
          have hrl := (b.compactWith compactCopy).asRead_length_inv hBinv
          dsimp only
          split_ifs with hz
          · exact ⟨total, _, _, _, rfl⟩
          · apply ih
            · constructor <;>
                simp only [Inv, Buffer.available, Buffer.position,
                  Buffer.limit]
                  at hBinv hBav hrl hw1 hBpos hz ⊢ <;> omega
            · exact hs
            · exact hw2
            · simp only [true_and] at hz
              simp only [Buffer.available, Buffer.free, Buffer.len,
                Buffer.position, Buffer.limit]
                at hfuel hw1 hw3 hrl hBav hz ⊢
              omega
      | false =>
          simp only [transfuseRec, cond_false]
          rw [read_bufSrc]
          obtain ⟨hn1, hn2, hn3, hn4⟩ :=
            copyInto_spec s (b.compactWith compactCopy).asWrite hs
          have hwl := (b.compactWith compactCopy).asWrite_length
          dsimp only
          rw [write_bufSnk]
          dsimp only
          obtain ⟨hw1, hw2, hw3⟩ := copyFrom_spec k
            (Buffer.asRead
              ⟨(b.compactWith compactCopy).data.take
                  (b.compactWith compactCopy).limit ++
                    (s.copyInto (b.compactWith compactCopy).asWrite).2.1,
                ((b.compactWith compactCopy).position,
                  (b.compactWith compactCopy).limit +
                    (s.copyInto (b.compactWith compactCopy).asWrite).1)⟩) hk
          have hb2inv :
              Inv (⟨(b.compactWith compactCopy).data.take
                  (b.compactWith compactCopy).limit ++
                    (s.copyInto (b.compactWith compactCopy).asWrite).2.1,
                ((b.compactWith compactCopy).position,
                  (b.compactWith compactCopy).limit +
                    (s.copyInto (b.compactWith compactCopy).asWrite).1)⟩ :
                Buffer α) := by
            constructor <;>
              simp only [Inv, Buffer.available, Buffer.position, Buffer.limit,
                List.length_append, List.length_take, List.length_drop]
                at hBinv hBav hBlen hn1 hn2 hwl hBpos ⊢ <;> omega
          have hrl2 := Buffer.asRead_length_inv _ hb2inv
          split_ifs with hz
          · exact ⟨total, _, _, _, rfl⟩
          · apply ih
            · constructor <;>
                simp only [Inv, Buffer.available, Buffer.position,
                  Buffer.limit, List.length_append, List.length_take,
                  List.length_drop]
                  at hb2inv hw1 hrl2 hBinv hBav hBlen hn1 hn2 hwl hBpos ⊢ <;>
                omega
            · exact hn3
            · exact hw2
            · simp only [not_and_or] at hz
              simp only [Buffer.available, Buffer.free, Buffer.len,
                Buffer.position, Buffer.limit, List.length_append,
                List.length_take, List.length_drop]
                at hfuel hn1 hn4 hw1 hw3 hrl2 hwl hBav hBinv hBlen hBpos
                  hb2inv hz ⊢
              omega

/-- C6: transfuse terminates for every finite in-memory producer and
consumer (source and sink backed by fixed-length Buffers satisfying the span
invariant): with enough fuel, the `transfuse_rec` recursion reaches the
double-zero check and returns `Ok` with the accumulated total. -/
theorem c6_transfuse_terminates {α : Type} (src snk buf : Buffer α)
    (hsrc : Inv src) (hsnk : Inv snk) (hbuf : Inv buf) :
    ∃ (fuel t : Nat) (b1 s1 k1 : Buffer α),
      transfuseRec compactCopy (bufSrc (ε := ErrKind)) bufSnk fuel false 0
          buf src snk = some (.ok (t, b1, s1, k1)) := by
  obtain ⟨t, b1, s1, k1, h⟩ :=
    transfuse_fueled (src.available + snk.free + 1) false 0 buf src snk
      hbuf hsrc hsnk (Nat.le_refl _)
  exact ⟨src.available + snk.free + 1, t, b1, s1, k1, h⟩

theorem c6_transfuse_terminates_witness :
    ∃ (fuel t : Nat) (b1 s1 k1 : Buffer Nat),
      transfuseRec compactCopy (bufSrc (ε := ErrKind)) bufSnk fuel false 0
          (Buffer.new [0, 0])
          ((Buffer.new [1, 2, 3]).asSource)
          (Buffer.new [0, 0, 0, 0]) = some (.ok (t, b1, s1, k1)) :=
  c6_transfuse_terminates ((Buffer.new [1, 2, 3]).asSource)
    (Buffer.new [0, 0, 0, 0]) (Buffer.new [0, 0])
    (by decide) (by decide) (by decide)

end Bio
